import Mathlib

/-!
Verification of the PromptToCommand repository (shell-command generator).

The development shallowly embeds the core logic of the three repository
variants over lists of characters:

* namespace V2  : src/src/bourguibagpt  (main.py version 2.0.0 and validators.py)
* namespace V1  : bourguibaGPT/main.py  (version 1.0.0)
* namespace Bourguiba : bourguiba/bourguiba.py

Python strings are modelled as List Char.  Python whitespace handling
(strip, split, splitlines) and the regular expressions of the source are
modelled over their ASCII subsets; every command and text appearing in the
claims is ASCII, so the restriction is inessential.
-/

/-- Characters of a Lean string, used to write List Char literals. -/
def toChars (s : String) : List Char := s.toList

/-- ASCII whitespace as recognised by Python str.strip, str.split and the
regex class backslash-s: space, tab, newline, carriage return, vertical tab,
form feed. -/
def isSpaceChar (c : Char) : Bool :=
  c = ' ' || c = '\t' || c = '\n' || c = '\r' || c = '\x0b' || c = '\x0c'

/-- Python str.strip (ASCII subset): remove leading and trailing whitespace. -/
def stripWs (s : List Char) : List Char :=
  ((s.dropWhile isSpaceChar).reverse.dropWhile isSpaceChar).reverse

/-- Worker for splitWs: acc holds the current word reversed. -/
def splitWsAux : List Char → List Char → List (List Char)
  | [], acc => if acc.isEmpty then [] else [acc.reverse]
  | c :: cs, acc =>
    if isSpaceChar c then
      if acc.isEmpty then splitWsAux cs [] else acc.reverse :: splitWsAux cs []
    else splitWsAux cs (c :: acc)

/-- Python str.split with no separator: split on runs of whitespace,
discarding empty words. -/
def splitWs (s : List Char) : List (List Char) := splitWsAux s []

/-- Line break characters handled by Python str.splitlines (ASCII subset). -/
def isLineBreak (c : Char) : Bool :=
  c = '\n' || c = '\r' || c = '\x0b' || c = '\x0c'

/-- Worker for splitLines; a CRLF pair counts as a single break. -/
def splitLinesAux : List Char → List Char → List (List Char)
  | [], acc => if acc.isEmpty then [] else [acc.reverse]
  | '\r' :: '\n' :: rest, acc => acc.reverse :: splitLinesAux rest []
  | c :: rest, acc =>
    if isLineBreak c then acc.reverse :: splitLinesAux rest []
    else splitLinesAux rest (c :: acc)

/-- Python str.splitlines (ASCII subset): no trailing empty line for a
text that ends in a line break. -/
def splitLines (s : List Char) : List (List Char) := splitLinesAux s []

/-- Python str.lower (ASCII subset). -/
def toLowerList (s : List Char) : List Char := s.map Char.toLower

/-- Python " ".join. -/
def joinSpace : List (List Char) → List Char
  | [] => []
  | [l] => l
  | l :: ls => l ++ ' ' :: joinSpace ls

/-- Boolean test that pat is a prefix of s. -/
def hasPre : List Char → List Char → Bool
  | [], _ => true
  | _ :: _, [] => false
  | p :: ps, c :: cs => p == c && hasPre ps cs

/-- Boolean test that pat is a suffix of s (Python str.endswith). -/
def hasSuf (pat s : List Char) : Bool := hasPre pat.reverse s.reverse

/-- Does p hold of some tail of s (the scanning of re.search and of the
Python substring operator)? -/
def searchFrom (p : List Char → Bool) : List Char → Bool
  | [] => p []
  | c :: cs => p (c :: cs) || searchFrom p cs

/-- Python substring containment, pat in s. -/
def containsSub (pat s : List Char) : Bool := searchFrom (hasPre pat) s

/-- Fuel-driven worker for replaceAll; fuel bounds the number of examined
positions, so fuel = length s always suffices. -/
def replaceAllFuel (pat rep : List Char) : Nat → List Char → List Char
  | _, [] => []
  | 0, s => s
  | fuel + 1, c :: cs =>
    if hasPre pat (c :: cs) && !pat.isEmpty then
      rep ++ replaceAllFuel pat rep fuel ((c :: cs).drop pat.length)
    else c :: replaceAllFuel pat rep fuel cs

/-- Python str.replace: replace every occurrence of pat by rep, scanning
left to right without overlap.  Both call sites in the source pass a
non-empty literal pattern. -/
def replaceAll (pat rep s : List Char) : List Char :=
  replaceAllFuel pat rep s.length s

/-- Python s.split(pat)[0]: the characters of s before the first occurrence
of pat (all of s when pat does not occur).  Used with a non-empty pat. -/
def splitFirst (pat : List Char) : List Char → List Char
  | [] => []
  | c :: cs => if hasPre pat (c :: cs) then [] else c :: splitFirst pat cs

/-- Consume pat at the front of s, returning the rest. -/
def stripLit (pat s : List Char) : Option (List Char) :=
  if hasPre pat s then some (s.drop pat.length) else none

/-- Consume one-or-more whitespace (regex backslash-s +) maximally; valid
here because every following regex atom is a non-whitespace character. -/
def wsPlus : List Char → Option (List Char)
  | [] => none
  | c :: cs => if isSpaceChar c then some (cs.dropWhile isSpaceChar) else none

namespace V2

/-!
Model of src/src/bourguibagpt/validators.py, class CommandValidator.
-/

/-- The character class of the argument regex of validators.py:
caret a-zA-Z0-9_ backslash-hyphen dot slash colon dollar. -/
def isSafeArgChar (c : Char) : Bool :=
  c.isAlphanum || c = '_' || c = '-' || c = '.' || c = '/' || c = ':'

/-- CommandValidator.SAFE_COMMANDS (a Python set; only membership is used,
so a list models it). -/
def SAFE_COMMANDS : List (List Char) :=
  [toChars "mkdir", toChars "ls", toChars "cd", toChars "pwd", toChars "cp",
   toChars "mv", toChars "rm", toChars "touch", toChars "cat", toChars "echo",
   toChars "grep", toChars "find", toChars "head", toChars "tail",
   toChars "chmod", toChars "chown", toChars "ln", toChars "ps",
   toChars "kill", toChars "df", toChars "du", toChars "tar", toChars "gzip",
   toChars "gunzip", toChars "bzip2", toChars "bunzip2", toChars "zip",
   toChars "unzip", toChars "ping", toChars "curl", toChars "wget",
   toChars "scp", toChars "ssh", toChars "rsync"]

/-- The body of the argument regex: one or more safe characters. -/
def safePatternBody (s : List Char) : Bool :=
  !s.isEmpty && s.all isSafeArgChar

/-- re.match of the anchored argument regex.  The dollar anchor of Python
also matches just before a single newline at the very end of the string,
hence the second disjunct. -/
def reMatchSafePattern (s : List Char) : Bool :=
  safePatternBody s ||
    (match s.getLast? with
     | some c => (c == '\n') && safePatternBody s.dropLast
     | none => false)

/-- The rejection reasons of CommandValidator.validate.  The source returns
the message strings Empty command / Command ... not in allowed list /
Invalid argument format ...; this model returns the reason as data. -/
inductive VError where
  | emptyCommand
  | notInAllowedList (base : List Char)
  | invalidArgumentFormat (arg : List Char)
  | indexErrorUnreachable
deriving DecidableEq

/-- The argument loop of CommandValidator.validate: report the first
argument that fails the argument regex. -/
def validateArgs : List (List Char) → Bool × Option VError
  | [] => (true, none)
  | a :: rest =>
    if reMatchSafePattern a then validateArgs rest
    else (false, some (VError.invalidArgumentFormat a))

/-- CommandValidator.validate.  The branch for an empty token list is
unreachable (the source would raise IndexError on parts[0]); it cannot
occur because a string with non-empty strip always splits into at least
one token. -/
def CommandValidator.validate (command : List Char) : Bool × Option VError :=
  if stripWs command = [] then (false, some VError.emptyCommand)
  else
    match splitWs (stripWs command) with
    | [] => (false, some VError.indexErrorUnreachable)
    | base :: args =>
      if base ∈ SAFE_COMMANDS then validateArgs args
      else (false, some (VError.notInAllowedList base))

/-!
Model of src/src/bourguibagpt/main.py, class ShellCommandGenerator:
the method call_ollama (retry loop and output cleanup), the method
generate_command (record construction and history append) and the
execution gate of execute_command.
-/

/-- The outcome of one HTTP attempt against the Ollama endpoint, as the
source distinguishes them: a RequestException (connection refused, timeout,
bad HTTP status raised by raise_for_status), a JSON body without the
response field, or a usable response text. -/
inductive CallOutcome where
  | requestError (excText : List Char)
  | invalidFormat
  | ok (text : List Char)
deriving DecidableEq

/-- How the method call_ollama terminates.  The raised constructors model
the ValueError exceptions that propagate to generate_command; commandNone
models the fall-through return after the loop, reachable only when
max_retries = 0 (the constructor requires max_retries to be at least 1). -/
inductive CallResult where
  | command (c : List Char)
  | raisedInvalidFormat
  | raisedExhausted (attempts : Nat) (excText : List Char)
  | commandNone
deriving DecidableEq

/-- The output cleanup inside call_ollama: strip, remove code-fence
markers, split into stripped lines, drop lines that are a bare shell name
(lowercased comparison against bash, zsh, sh), join with single spaces and
strip.  The fence markers are the three-backtick sequences, written with
x60 escapes. -/
def cleanOllamaText (response : List Char) : List Char :=
  let command := stripWs response
  let command :=
    stripWs (replaceAll (toChars "\x60\x60\x60") []
      (replaceAll (toChars "\x60\x60\x60shell") [] command))
  let lines := (splitLines command).map stripWs
  let lines := lines.filter (fun l =>
    !(toLowerList l = toChars "bash" || toLowerList l = toChars "zsh" ||
      toLowerList l = toChars "sh"))
  stripWs (joinSpace lines)

/-- The retry loop of call_ollama: for attempt in range(max_retries).
The backend argument gives the outcome of each attempt; remaining is the
number of loop iterations left (initially maxRetries, in step with
attempt).  Returns the result together with the number of attempts
performed.  Only a RequestException is caught and retried; the ValueError
for a malformed body escapes at once.  On the last retry the
RequestException is converted to the exhausted ValueError. -/
def callOllamaAux (backend : Nat → CallOutcome) (maxRetries : Nat) :
    Nat → Nat → CallResult × Nat
  | attempt, 0 => (CallResult.commandNone, attempt)
  | attempt, remaining + 1 =>
    match backend attempt with
    | CallOutcome.ok text => (CallResult.command (cleanOllamaText text), attempt + 1)
    | CallOutcome.invalidFormat => (CallResult.raisedInvalidFormat, attempt + 1)
    | CallOutcome.requestError excText =>
      if attempt = maxRetries - 1 then
        (CallResult.raisedExhausted maxRetries excText, attempt + 1)
      else callOllamaAux backend maxRetries (attempt + 1) remaining

/-- The method call_ollama of ShellCommandGenerator. -/
def call_ollama (backend : Nat → CallOutcome) (maxRetries : Nat) :
    CallResult × Nat :=
  callOllamaAux backend maxRetries 0 maxRetries

/-- One entry of command_history as built by generate_command: the dict
with keys prompt, command, timestamp, success, error; the optional
feedback key is added later by execute_command. -/
structure InteractionRecord where
  prompt : List Char
  command : Option (List Char)
  timestamp : List Char
  success : Bool
  error : Option (List Char)
  feedback : Option (List Char)
deriving DecidableEq

/-- Message of ValueError - Invalid API response format. -/
def msgInvalidFormat : List Char := toChars "Invalid API response format"

/-- Message of ValueError - Generated command is empty. -/
def msgEmptyCommand : List Char := toChars "Generated command is empty"

/-- Message of the exhausted ValueError: Failed to call Ollama API after n
attempts, followed by the text of the last RequestException. -/
def msgExhausted (n : Nat) (excText : List Char) : List Char :=
  toChars "Failed to call Ollama API after " ++ toChars (Nat.repr n) ++
    toChars " attempts: " ++ excText

/-- Message of the AttributeError raised when call_ollama returns a None
command (only when max_retries = 0) and generate_command calls strip on
it. -/
def msgNoneStrip : List Char :=
  toChars "NoneType object has no attribute strip"

/-- Failure record constructor used by the except branch of
generate_command. -/
def mkFailure (prompt now msg : List Char) : InteractionRecord :=
  { prompt := prompt, command := none, timestamp := now, success := false,
    error := some msg, feedback := none }

/-- The method generate_command: call the backend, strip the cleaned
command, classify the outcome, build the record and append it to the
in-memory history (save_history persists the same list).  The backend
failure kinds are modelled by CallResult; the broad except block of the
source catches each of them and produces the failure record.  Returns the
record together with the new history. -/
def generate_command (backend : Nat → CallOutcome) (maxRetries : Nat)
    (prompt now : List Char) (history : List InteractionRecord) :
    InteractionRecord × List InteractionRecord :=
  let record :=
    match (call_ollama backend maxRetries).1 with
    | CallResult.command c =>
      let cmd := stripWs c
      if cmd = [] then mkFailure prompt now msgEmptyCommand
      else
        { prompt := prompt, command := some cmd, timestamp := now,
          success := true, error := none, feedback := none }
    | CallResult.raisedInvalidFormat => mkFailure prompt now msgInvalidFormat
    | CallResult.raisedExhausted n excText =>
        mkFailure prompt now (msgExhausted n excText)
    | CallResult.commandNone => mkFailure prompt now msgNoneStrip
  (record, history ++ [record])

/-- The execution gate of the method execute_command: the command is
handed to subprocess.run only when CommandValidator.validate accepts it
and, when confirmation is requested, the answer lowercases to yes.
Returns whether subprocess.run is reached. -/
def execute_command_runs (command : List Char) (confirm_execution : Bool)
    (answer : List Char) : Bool :=
  if (CommandValidator.validate command).1 = false then false
  else if confirm_execution = true ∧ toLowerList answer ≠ toChars "yes" then false
  else true

/-!
Model of the history file round trip: save_history writes the record list
with json.dump and load_history reads it back with json.load.  The JSON
value written to and parsed from the file is modelled by the Jval tree;
encodeRecord is the JSON image of one history dict and decodeRecord
materialises it back.
-/

/-- JSON values as relevant to the history file. -/
inductive Jval where
  | null
  | bool (b : Bool)
  | str (s : List Char)
  | arr (xs : List Jval)
  | obj (fields : List (List Char × Jval))

/-- An optional string as JSON: null when absent in the record. -/
def encOptStr : Option (List Char) → Jval
  | none => Jval.null
  | some s => Jval.str s

/-- The JSON object written for one history record, with the key order of
generate_command; the feedback key is present only when execute_command
has set it. -/
def encodeRecord (r : InteractionRecord) : Jval :=
  Jval.obj
    ([(toChars "prompt", Jval.str r.prompt),
      (toChars "command", encOptStr r.command),
      (toChars "timestamp", Jval.str r.timestamp),
      (toChars "success", Jval.bool r.success),
      (toChars "error", encOptStr r.error)] ++
     (match r.feedback with
      | none => []
      | some f => [(toChars "feedback", Jval.str f)]))

/-- Key lookup in a JSON object, first binding wins. -/
def jlookup (key : List Char) : List (List Char × Jval) → Option Jval
  | [] => none
  | (k, v) :: rest => if k = key then some v else jlookup key rest

/-- Read back an optional string field. -/
def decOptStr : Option Jval → Option (Option (List Char))
  | some (Jval.str s) => some (some s)
  | some Jval.null => some none
  | _ => none

/-- Materialise one parsed history object back into a record. -/
def decodeRecord (j : Jval) : Option InteractionRecord :=
  match j with
  | Jval.obj fields =>
    match jlookup (toChars "prompt") fields, jlookup (toChars "timestamp") fields,
          jlookup (toChars "success") fields,
          decOptStr (jlookup (toChars "command") fields),
          decOptStr (jlookup (toChars "error") fields),
          jlookup (toChars "feedback") fields with
    | some (Jval.str p), some (Jval.str ts), some (Jval.bool b), some cmd,
      some err, none =>
        some { prompt := p, command := cmd, timestamp := ts, success := b,
               error := err, feedback := none }
    | some (Jval.str p), some (Jval.str ts), some (Jval.bool b), some cmd,
      some err, some (Jval.str f) =>
        some { prompt := p, command := cmd, timestamp := ts, success := b,
               error := err, feedback := some f }
    | _, _, _, _, _, _ => none
  | _ => none

/-- Materialise every element of the parsed history array, in order. -/
def decodeRecords : List Jval → Option (List InteractionRecord)
  | [] => some []
  | j :: js =>
    match decodeRecord j, decodeRecords js with
    | some r, some rs => some (r :: rs)
    | _, _ => none

/-- The method save_history: the JSON value json.dump writes for the
whole in-memory history list. -/
def save_history (history : List InteractionRecord) : Jval :=
  Jval.arr (history.map encodeRecord)

/-- The method load_history: parse the history file content back into the
record list. -/
def load_history : Jval → Option (List InteractionRecord)
  | Jval.arr js => decodeRecords js
  | _ => none

end V2

namespace V1

/-!
Model of bourguibaGPT/main.py, class ShellCommandGenerator: the methods
extract_command, validate_command and the execution gate of
execute_command.
-/

/-- The token character class of the command regex of bourguibaGPT,
bracket backslash-w dot slash hyphen bracket; backslash-w is modelled by
its ASCII subset (alphanumerics and underscore). -/
def isTokChar (c : Char) : Bool :=
  c.isAlphanum || c = '_' || c = '.' || c = '/' || c = '-'

/-- Full match of the command regex, one token then any number of
whitespace-plus-token groups.  Because the token class and whitespace are
disjoint, the regex matches a whole string exactly when the string is
non-empty, starts and ends with a token character, and every character is
a token or whitespace character: such a string decomposes uniquely into
alternating maximal runs, which is precisely the shape of the regex. -/
def matchesCmdShape (s : List Char) : Bool :=
  match s.head?, s.getLast? with
  | some c, some d =>
    isTokChar c && isTokChar d && s.all (fun e => isTokChar e || isSpaceChar e)
  | _, _ => false

/-- re.match of the anchored command regex in validate_command; the dollar
anchor also matches just before a single newline at the very end. -/
def reMatchCmdShape (s : List Char) : Bool :=
  matchesCmdShape s ||
    (match s.getLast? with
     | some c => (c == '\n') && matchesCmdShape s.dropLast
     | none => false)

/-- Match, at the current position, the dangerous pattern
rm backslash-s+ -rf backslash-s+ bracket slash star bracket. -/
def matchRmAt (s : List Char) : Bool :=
  match stripLit (toChars "rm") s with
  | none => false
  | some s1 =>
    match wsPlus s1 with
    | none => false
    | some s2 =>
      match stripLit (toChars "-rf") s2 with
      | none => false
      | some s3 =>
        match wsPlus s3 with
        | none => false
        | some s4 =>
          match s4 with
          | c :: _ => c = '/' || c = '*'
          | [] => false

/-- Match, at the current position, the fork-bomb pattern of the source.
As a Python regex that pattern is an alternation: its uncovered pipe
splits it into two literal branches, colon, empty group, open brace,
space, colon on the left and colon, ampersand, space, close brace,
semicolon, colon on the right (the braces are literal because they do not
form a quantifier).  The braces are written with x7b and x7d escapes. -/
def matchForkAt (s : List Char) : Bool :=
  hasPre (toChars ":\x7b :") s || hasPre (toChars ":& \x7d;:") s

/-- Match, at the current position, the device-write pattern
greater-than, one character other than greater-than, backslash-s star,
slash dev slash. -/
def matchDevAt : List Char → Bool
  | '>' :: c :: rest =>
    !(c == '>') && hasPre (toChars "/dev/") (rest.dropWhile isSpaceChar)
  | _ => false

/-- Match, at the current position, the literal pattern mkfs. -/
def matchMkfsAt (s : List Char) : Bool := hasPre (toChars "mkfs") s

/-- Match, at the current position, the pattern dd backslash-s+ if=. -/
def matchDdAt (s : List Char) : Bool :=
  match stripLit (toChars "dd") s with
  | none => false
  | some s1 =>
    match wsPlus s1 with
    | none => false
    | some s2 => hasPre (toChars "if=") s2

/-- The dangerous-pattern loop of validate_command: re.search of each
pattern in order. -/
def dangerousMatch (command : List Char) : Bool :=
  searchFrom matchRmAt command || searchFrom matchForkAt command ||
  searchFrom matchDevAt command || searchFrom matchMkfsAt command ||
  searchFrom matchDdAt command

/-- The method validate_command: empty check, structure regex, dangerous
patterns, separator substrings, think-tag check.  There is no whitelist
check in this variant. -/
def validate_command (command : List Char) : Bool :=
  if stripWs command = [] then false
  else if !reMatchCmdShape command then false
  else if dangerousMatch command then false
  else if containsSub (toChars ";") command || containsSub (toChars "&&") command ||
          containsSub (toChars "||") command || containsSub (toChars "\x60") command then
    false
  else if stripWs command = toChars "<think>" ||
          (hasPre (toChars "<") command && hasSuf (toChars ">") command) then
    false
  else true

/-- The non-empty stripped lines of the raw model output, as built by
extract_command. -/
def linesOf (text : List Char) : List (List Char) :=
  ((splitLines text).map stripWs).filter (fun l => !l.isEmpty)

/-- The special-case trims of extract_command: a line starting with mkdir
that contains rm keeps only the stripped part before the first rm; then a
line starting with docker run and ending in -u loses its last two
characters and is stripped. -/
def transformLine (line : List Char) : List Char :=
  let line :=
    if hasPre (toChars "mkdir") line && containsSub (toChars "rm") line then
      stripWs (splitFirst (toChars "rm") line)
    else line
  let line :=
    if hasPre (toChars "docker run") line && hasSuf (toChars "-u") line then
      stripWs (line.take (line.length - 2))
    else line
  line

/-- The scanning loop of extract_command over the reversed line list:
return the transform of the first line that fully matches the command
regex. -/
def findCmd : List (List Char) → Option (List Char)
  | [] => none
  | l :: ls => if matchesCmdShape l then some (transformLine l) else findCmd ls

/-- The method extract_command. -/
def extract_command (generated_text : List Char) : Option (List Char) :=
  findCmd (linesOf generated_text).reverse

/-- The execution gate of the method execute_command of bourguibaGPT:
the command is handed to subprocess.run only when validate_command
accepts it and the confirmation answer lowercases to yes. -/
def execute_command_runs (command : List Char) (answer : List Char) : Bool :=
  if validate_command command = false then false
  else if toLowerList answer = toChars "yes" then true
  else false

end V1

namespace Bourguiba

/-!
Model of bourguiba/bourguiba.py: the method clean_command and one
iteration of the interactive loop of main, which hands the generated
command to subprocess.run with no validation of any kind.
-/

/-- The method clean_command: strip, then platform-specific replacement of
a leading Create a folder phrase by mkdir (with a -Force suffix on
Windows). -/
def clean_command (system_platform command : List Char) : List Char :=
  let command := stripWs command
  if system_platform = toChars "Linux" then
    if hasPre (toChars "Create a folder") command then
      replaceAll (toChars "Create a folder") (toChars "mkdir") command
    else command
  else if system_platform = toChars "Darwin" then
    if hasPre (toChars "Create a folder") command then
      replaceAll (toChars "Create a folder") (toChars "mkdir") command
    else command
  else if system_platform = toChars "Windows" then
    if hasPre (toChars "Create a folder") command then
      replaceAll (toChars "Create a folder") (toChars "mkdir") command ++
        toChars " -Force"
    else command
  else command

/-- One iteration of the loop of main: for any description other than
quit, the cleaned model output is returned as the string handed to
subprocess.run; none models the quit branch where nothing runs.  The raw
model output of the T5 model is an external input. -/
def main_step (system_platform description raw_output : List Char) :
    Option (List Char) :=
  if toLowerList description = toChars "quit" then none
  else some (clean_command system_platform raw_output)

end Bourguiba

/-! Concrete backend behaviours used to instantiate the retry-loop
results. -/

/-- A backend whose every attempt raises a RequestException (connection
refused, timeout or bad HTTP status) with empty exception text. -/
def backendAlwaysRequestError : Nat → V2.CallOutcome :=
  fun _ => V2.CallOutcome.requestError []

/-- A backend whose every attempt returns a JSON body without the
response field. -/
def backendAlwaysMalformed : Nat → V2.CallOutcome :=
  fun _ => V2.CallOutcome.invalidFormat

/-- A backend whose every attempt answers with the single line bash,
which the output cleanup reduces to the empty string. -/
def backendBareShellName : Nat → V2.CallOutcome :=
  fun _ => V2.CallOutcome.ok (toChars "bash")

/-! Helper lemmas about the string utilities. -/

theorem hasPre_exists {p s : List Char} (h : hasPre p s = true) :
    ∃ t, s = p ++ t := by
  induction p generalizing s with
  | nil => exact ⟨s, rfl⟩
  | cons a ps ih =>
    cases s with
    | nil => simp [hasPre] at h
    | cons c cs =>
      simp only [hasPre, Bool.and_eq_true, beq_iff_eq] at h
      obtain ⟨t, ht⟩ := ih h.2
      exact ⟨t, by simp [h.1, ht]⟩

theorem hasPre_cons_ne {p : Char} {ps : List Char} {c : Char} {cs : List Char}
    (h : p ≠ c) : hasPre (p :: ps) (c :: cs) = false := by
  simp [hasPre, h]

theorem splitFirst_cons_of_not_pre {pat : List Char} {c : Char} {cs : List Char}
    (h : hasPre pat (c :: cs) = false) :
    splitFirst pat (c :: cs) = c :: splitFirst pat cs := by
  rw [splitFirst, if_neg (by simp [h])]

theorem containsSub_mem {p s : List Char} {c : Char}
    (h : containsSub p s = true) (hc : c ∈ p) : c ∈ s := by
  unfold containsSub at h
  induction s with
  | nil =>
    simp only [searchFrom] at h
    obtain ⟨t, ht⟩ := hasPre_exists h
    rw [List.nil_eq, List.append_eq_nil] at ht
    simp [ht.1] at hc
  | cons d ds ih =>
    simp only [searchFrom, Bool.or_eq_true] at h
    rcases h with h | h
    · obtain ⟨t, ht⟩ := hasPre_exists h
      rw [ht]
      exact List.mem_append_left _ hc
    · exact List.mem_cons_of_mem _ (ih h)

theorem mem_dropWhile_of_neg {p : Char → Bool} {s : List Char} {c : Char}
    (hc : p c = false) (h : c ∈ s) : c ∈ s.dropWhile p := by
  induction s with
  | nil => simp at h
  | cons a l ih =>
    by_cases ha : p a = true
    · rw [List.dropWhile_cons_of_pos ha]
      rcases List.mem_cons.mp h with rfl | h
      · rw [hc] at ha; cases ha
      · exact ih h
    · rw [List.dropWhile_cons_of_neg (by simpa using ha)]
      exact h

theorem mem_stripWs {s : List Char} {c : Char}
    (hc : isSpaceChar c = false) (h : c ∈ s) : c ∈ stripWs s := by
  unfold stripWs
  rw [List.mem_reverse]
  exact mem_dropWhile_of_neg hc (by
    rw [List.mem_reverse]
    exact mem_dropWhile_of_neg hc h)

theorem splitWsAux_mem {c : Char} (hc : isSpaceChar c = false) :
    ∀ (s acc : List Char), (c ∈ s ∨ c ∈ acc) →
    ∃ t ∈ splitWsAux s acc, c ∈ t := by
  intro s
  induction s with
  | nil =>
    intro acc h
    rcases h with h | h
    · simp at h
    · refine ⟨acc.reverse, ?_, List.mem_reverse.mpr h⟩
      have : acc.isEmpty = false := by
        cases acc with
        | nil => simp at h
        | cons x xs => rfl
      simp [splitWsAux, this]
  | cons d ds ih =>
    intro acc h
    by_cases hd : isSpaceChar d = true
    · have hcd : c ≠ d := fun he => by rw [he, hd] at hc; cases hc
      have hcs : c ∈ ds ∨ c ∈ acc := by
        rcases h with h | h
        · rcases List.mem_cons.mp h with rfl | h
          · exact absurd rfl hcd
          · exact Or.inl h
        · exact Or.inr h
      by_cases hacc : acc.isEmpty = true
      · have : acc = [] := by cases acc with | nil => rfl | cons x xs => simp at hacc
        subst this
        obtain ⟨t, ht, hct⟩ := ih [] (by simpa using hcs)
        exact ⟨t, by simp [splitWsAux, hd, ht], hct⟩
      · rcases hcs with hcs | hcs
        · obtain ⟨t, ht, hct⟩ := ih [] (Or.inl hcs)
          refine ⟨t, ?_, hct⟩
          simp only [splitWsAux, hd, if_true, Bool.not_eq_true] at *
          rw [if_neg (by simp_all)]
          exact List.mem_cons_of_mem _ ht
        · refine ⟨acc.reverse, ?_, List.mem_reverse.mpr hcs⟩
          simp only [splitWsAux, hd, if_true]
          rw [if_neg (by simp_all)]
          exact List.mem_cons_self _ _
    · have hd' : isSpaceChar d = false := by simpa using hd
      have hcs : c ∈ ds ∨ c ∈ d :: acc := by
        rcases h with h | h
        · rcases List.mem_cons.mp h with rfl | h
          · exact Or.inr (List.mem_cons_self _ _)
          · exact Or.inl h
        · exact Or.inr (List.mem_cons_of_mem _ h)
      obtain ⟨t, ht, hct⟩ := ih (d :: acc) hcs
      exact ⟨t, by simpa [splitWsAux, hd'] using ht, hct⟩

theorem splitWs_mem {s : List Char} {c : Char}
    (hc : isSpaceChar c = false) (h : c ∈ s) :
    ∃ t ∈ splitWs s, c ∈ t :=
  splitWsAux_mem hc s [] (Or.inl h)

theorem stripWs_ne_nil_of_mem {s : List Char} {c : Char}
    (hc : isSpaceChar c = false) (h : c ∈ s) : stripWs s ≠ [] :=
  List.ne_nil_of_mem (mem_stripWs hc h)

/-! Helper lemmas about the V2 validator. -/

/-- Every character of every whitelisted command word lies in the safe
argument class (all words are lowercase letters or digits). -/
theorem safeCommandsChars :
    ∀ w ∈ V2.SAFE_COMMANDS, ∀ ch ∈ w, V2.isSafeArgChar ch = true := by decide

theorem validateArgs_fst_false {args : List (List Char)} {a : List Char}
    (ha : a ∈ args) (hfail : V2.reMatchSafePattern a = false) :
    (V2.validateArgs args).1 = false := by
  induction args with
  | nil => simp at ha
  | cons b rest ih =>
    rcases List.mem_cons.mp ha with rfl | ha
    · simp [V2.validateArgs, hfail]
    · by_cases hb : V2.reMatchSafePattern b = true
      · simpa [V2.validateArgs, hb] using ih ha
      · simp only [Bool.not_eq_true] at hb
        simp [V2.validateArgs, hb]

theorem reMatchSafePattern_chars {a : List Char} {c : Char}
    (h : V2.reMatchSafePattern a = true) (hc : c ∈ a) :
    (V2.isSafeArgChar c || isSpaceChar c) = true := by
  cases hl : a.getLast? with
  | none =>
    rw [List.getLast?_eq_none_iff] at hl
    subst hl; simp at hc
  | some ch =>
    rw [V2.reMatchSafePattern, hl] at h
    simp only [Bool.or_eq_true, Bool.and_eq_true, beq_iff_eq] at h
    rcases h with h | ⟨hch, h⟩
    · rw [V2.safePatternBody, Bool.and_eq_true, List.all_eq_true] at h
      simp [h.2 c hc]
    · have hsplit := List.dropLast_append_getLast? ch hl
      rw [← hsplit] at hc
      rcases List.mem_append.mp hc with hc | hc
      · rw [V2.safePatternBody, Bool.and_eq_true, List.all_eq_true] at h
        simp [h.2 c hc]
      · have : c = ch := by simpa using hc
        subst this; subst hch
        simp [isSpaceChar]

/-- Master lemma for the V2 validator: a command containing a character
that is outside the safe argument class and is not whitespace is always
rejected, because that character lands in some token of the split; if it
lands in the leading token the latter cannot be a whitelisted word, and if
it lands in an argument that argument fails the argument regex. -/
theorem V2.validate_fst_false_of_badchar {cmd : List Char} {c : Char}
    (hsafe : V2.isSafeArgChar c = false) (hspace : isSpaceChar c = false)
    (hmem : c ∈ cmd) :
    (V2.CommandValidator.validate cmd).1 = false := by
  have hstrip : stripWs cmd ≠ [] := stripWs_ne_nil_of_mem hspace hmem
  have hmem' : c ∈ stripWs cmd := mem_stripWs hspace hmem
  obtain ⟨t, ht, hct⟩ := splitWs_mem hspace hmem'
  rw [V2.CommandValidator.validate, if_neg hstrip]
  cases hsp : splitWs (stripWs cmd) with
  | nil => exact absurd (hsp ▸ ht) (by simp)
  | cons base args =>
    rw [hsp] at ht
    dsimp only
    rcases List.mem_cons.mp ht with rfl | ht
    · have hbase : t ∉ V2.SAFE_COMMANDS := by
        intro hcon
        have := safeCommandsChars t hcon c hct
        simp [hsafe] at this
      rw [if_neg hbase]
    · by_cases hbase : base ∈ V2.SAFE_COMMANDS
      · rw [if_pos hbase]
        refine validateArgs_fst_false ht ?_
        by_cases hp : V2.reMatchSafePattern t = true
        · have := reMatchSafePattern_chars hp hct
          simp [hsafe, hspace] at this
        · simpa using hp
      · rw [if_neg hbase]

/-! Helper lemmas about the V1 validator and extractor. -/

theorem matchesCmdShape_chars {s : List Char} {c : Char}
    (h : V1.matchesCmdShape s = true) (hc : c ∈ s) :
    (V1.isTokChar c || isSpaceChar c) = true := by
  cases s with
  | nil => simp at hc
  | cons d ds =>
    cases hl : (d :: ds).getLast? with
    | none => rw [List.getLast?_eq_none_iff] at hl; cases hl
    | some e =>
      unfold V1.matchesCmdShape at h
      rw [List.head?_cons, hl] at h
      simp only [Bool.and_eq_true, List.all_eq_true] at h
      exact h.2 c hc

theorem reMatchCmdShape_chars {s : List Char} {c : Char}
    (h : V1.reMatchCmdShape s = true) (hc : c ∈ s) :
    (V1.isTokChar c || isSpaceChar c) = true := by
  rw [V1.reMatchCmdShape, Bool.or_eq_true] at h
  rcases h with h | h
  · exact matchesCmdShape_chars h hc
  · cases hl : s.getLast? with
    | none => rw [hl] at h; cases h
    | some e =>
      rw [hl] at h
      simp only [Bool.and_eq_true, beq_iff_eq] at h
      obtain ⟨rfl, hbody⟩ := h
      have hsplit := List.dropLast_append_getLast? _ hl
      rw [← hsplit] at hc
      rcases List.mem_append.mp hc with hc | hc
      · exact matchesCmdShape_chars hbody hc
      · have : c = '\n' := by simpa using hc
        subst this
        simp [isSpaceChar]

/-- Master lemma for the V1 validator: a command containing a character
that is outside the token class and is not whitespace always fails
validate_command, through the empty check or the structure regex. -/
theorem V1.validate_command_false_of_badchar {cmd : List Char} {c : Char}
    (htok : V1.isTokChar c = false) (hspace : isSpaceChar c = false)
    (hmem : c ∈ cmd) : V1.validate_command cmd = false := by
  by_cases hstrip : stripWs cmd = []
  · simp [V1.validate_command, hstrip]
  · have hshape : V1.reMatchCmdShape cmd = false := by
      by_contra hcon
      rw [Bool.not_eq_false] at hcon
      have := reMatchCmdShape_chars hcon hmem
      simp [htok, hspace] at this
    simp [V1.validate_command, hstrip, hshape]

theorem findCmd_eq (ls : List (List Char)) :
    V1.findCmd ls = (ls.find? V1.matchesCmdShape).map V1.transformLine := by
  induction ls with
  | nil => rfl
  | cons l rest ih =>
    by_cases hl : V1.matchesCmdShape l = true
    · simp [V1.findCmd, hl, List.find?_cons_of_pos]
    · simp only [Bool.not_eq_true] at hl
      simp [V1.findCmd, hl, List.find?_cons_of_neg, ih]

/-- extract_command is the transform of the last structurally matching
line. -/
theorem extract_command_eq_find (text : List Char) :
    V1.extract_command text =
      ((V1.linesOf text).reverse.find? V1.matchesCmdShape).map V1.transformLine :=
  findCmd_eq _

theorem stripWs_cons_of_nonspace (a : Char) (xs : List Char)
    (ha : isSpaceChar a = false) :
    ∃ ys, stripWs (a :: xs) = a :: ys := by
  unfold stripWs
  rw [List.dropWhile_cons_of_neg (by simp [ha]), List.reverse_cons,
    List.dropWhile_append]
  split
  · refine ⟨[], ?_⟩
    rw [List.dropWhile_cons_of_neg (by simp [ha])]
    simp
  · exact ⟨(List.dropWhile isSpaceChar xs.reverse).reverse, by simp⟩

/-! Helper lemma about the V2 retry loop. -/

theorem callOllamaAux_allErr {backend : Nat → V2.CallOutcome}
    {excText : List Char} {m : Nat}
    (hb : ∀ i, backend i = V2.CallOutcome.requestError excText) :
    ∀ rem a, 1 ≤ rem → a + rem = m →
    V2.callOllamaAux backend m a rem =
      (V2.CallResult.raisedExhausted m excText, m) := by
  intro rem
  induction rem with
  | zero => intro a h1 _; omega
  | succ r ih =>
    intro a h1 h2
    rw [V2.callOllamaAux, hb a]
    by_cases hr : r = 0
    · subst hr
      have ha : a = m - 1 := by omega
      have ha1 : a + 1 = m := by omega
      simp only [if_pos ha, ha1]
    · have hne : ¬ (a = m - 1) := by omega
      simp only [if_neg hne]
      exact ih (a + 1) (by omega) (by omega)


/-! The claims. -/

/-- Claim C1, counterexample: the claim states that on every execution
path a string is handed to the host shell only if the safety validator
has accepted it.  The main loop of bourguiba/bourguiba.py hands the
cleaned model output to subprocess.run with no validation at all: here a
model output that both validators reject is nevertheless the string handed
to the shell. -/
theorem c1_counterexample :
    Bourguiba.main_step (toChars "Linux") (toChars "show files and secrets")
        (toChars "ls; cat /etc/passwd") = some (toChars "ls; cat /etc/passwd")
    ∧ (V2.CommandValidator.validate (toChars "ls; cat /etc/passwd")).1 = false
    ∧ V1.validate_command (toChars "ls; cat /etc/passwd") = false := by
  exact ⟨by decide, by decide, by decide⟩

/-- Claim C1, amended: in the bourguibagpt and bourguibaGPT variants the
execute_command gate hands the string to the shell only when its
validator has accepted it, on both the generated-command path and the
direct execute input path, which both go through execute_command; the
bourguiba variant executes generated commands without any validation. -/
theorem c1_gate_requires_validation (cmd : List Char) (confirm : Bool)
    (ans1 ans2 : List Char) :
    (V2.execute_command_runs cmd confirm ans1 = true →
      (V2.CommandValidator.validate cmd).1 = true)
    ∧ (V1.execute_command_runs cmd ans2 = true →
      V1.validate_command cmd = true) := by
  constructor
  · intro h
    by_contra hv
    rw [Bool.not_eq_true] at hv
    simp [V2.execute_command_runs, hv] at h
  · intro h
    by_contra hv
    rw [Bool.not_eq_true] at hv
    simp [V1.execute_command_runs, hv] at h

/-- Claim C1, witness for the amended theorem at a command both gates
run. -/
theorem c1_gate_witness :
    (V2.CommandValidator.validate (toChars "ls -la")).1 = true
    ∧ V1.validate_command (toChars "ls -la") = true :=
  ⟨(c1_gate_requires_validation (toChars "ls -la") false (toChars "x")
      (toChars "yes")).1 (by decide),
   (c1_gate_requires_validation (toChars "ls -la") false (toChars "x")
      (toChars "yes")).2 (by decide)⟩

/-- Claim C2, counterexample: CommandValidator.validate of validators.py
has no dangerous-pattern check at all and accepts rm -rf / outright, so
the claim that validate rejects it is false for that validator. -/
theorem c2_counterexample :
    V2.CommandValidator.validate (toChars "rm -rf /") = (true, none) := by
  decide

/-- Claim C2, amended: the dangerous-pattern override exists only in the
bourguibaGPT validate_command, which rejects rm -rf / because the
rm-recursive-force pattern matches, even though the command passes the
structure regex and its leading token rm is whitelisted in the
bourguibagpt CommandValidator; the latter validator has no
dangerous-pattern check and accepts the command. -/
theorem c2_amended_danger_overrides :
    V1.validate_command (toChars "rm -rf /") = false
    ∧ searchFrom V1.matchRmAt (toChars "rm -rf /") = true
    ∧ V1.reMatchCmdShape (toChars "rm -rf /") = true
    ∧ toChars "rm" ∈ V2.SAFE_COMMANDS := by
  exact ⟨by decide, by decide, by decide, by decide⟩

/-- Claim C3: any command containing one of the separator substrings is
rejected by both validators, whatever its leading token: in
CommandValidator the offending character can live neither in a
whitelisted leading token nor in an argument matching the argument regex,
and in validate_command it makes the structure regex fail. -/
theorem c3_separators_rejected (cmd : List Char)
    (h : containsSub (toChars ";") cmd = true
       ∨ containsSub (toChars "&&") cmd = true
       ∨ containsSub (toChars "||") cmd = true
       ∨ containsSub (toChars "\x60") cmd = true) :
    (V2.CommandValidator.validate cmd).1 = false
    ∧ V1.validate_command cmd = false := by
  have key : ∃ c, c ∈ cmd ∧ V2.isSafeArgChar c = false ∧ V1.isTokChar c = false
      ∧ isSpaceChar c = false := by
    rcases h with h | h | h | h
    · exact ⟨';', containsSub_mem h (by decide), by decide, by decide, by decide⟩
    · exact ⟨'&', containsSub_mem h (by decide), by decide, by decide, by decide⟩
    · exact ⟨'|', containsSub_mem h (by decide), by decide, by decide, by decide⟩
    · exact ⟨'\x60', containsSub_mem h (by decide), by decide, by decide, by decide⟩
  obtain ⟨c, hmem, hsafe, htok, hspace⟩ := key
  exact ⟨V2.validate_fst_false_of_badchar hsafe hspace hmem,
    V1.validate_command_false_of_badchar htok hspace hmem⟩

/-- Claim C3, witness at a two-statement command. -/
theorem c3_witness :
    (V2.CommandValidator.validate (toChars "ls; rm x")).1 = false
    ∧ V1.validate_command (toChars "ls; rm x") = false :=
  c3_separators_rejected (toChars "ls; rm x") (Or.inl (by decide))

/-- Claim C4, counterexample: CommandValidator.validate performs no sudo
stripping; sudo itself is not whitelisted, so the whitelisted command ls
prefixed by sudo is rejected on whitelist grounds, contradicting the
claim. -/
theorem c4_counterexample :
    V2.CommandValidator.validate (toChars "sudo ls") =
      (false, some (V2.VError.notInAllowedList (toChars "sudo"))) := by
  decide

/-- Claim C4, amended: for every command whose leading token (with no
sudo stripping performed) is not a member of the whitelist, validate
returns the rejection whose reason names that token as not in the allowed
list; in particular a whitelisted command prefixed by sudo is itself
rejected on whitelist grounds because sudo is not whitelisted. -/
theorem c4_whitelist_rejection (cmd base : List Char)
    (rest : List (List Char))
    (hsplit : splitWs (stripWs cmd) = base :: rest)
    (hbase : base ∉ V2.SAFE_COMMANDS) :
    V2.CommandValidator.validate cmd =
      (false, some (V2.VError.notInAllowedList base)) := by
  have hstrip : stripWs cmd ≠ [] := by
    intro h
    rw [h] at hsplit
    simp [splitWs, splitWsAux] at hsplit
  rw [V2.CommandValidator.validate, if_neg hstrip, hsplit]
  dsimp only
  rw [if_neg hbase]

/-- Claim C4, witness for the amended theorem at a non-whitelisted
command. -/
theorem c4_whitelist_witness :
    V2.CommandValidator.validate (toChars "frobnicate x") =
      (false, some (V2.VError.notInAllowedList (toChars "frobnicate"))) :=
  c4_whitelist_rejection (toChars "frobnicate x") (toChars "frobnicate")
    [toChars "x"] (by decide) (by decide)

/-- Claim C5, counterexample: with the default three retries, a backend
whose first response is malformed (missing the response field) makes
call_ollama raise after a single attempt, not after three: the ValueError
for an invalid response format is not caught by the retry loop, and
generate_command records the failure after that one attempt. -/
theorem c5_counterexample :
    (V2.call_ollama backendAlwaysMalformed 3).2 = 1
    ∧ (V2.generate_command backendAlwaysMalformed 3 [] [] []).1.success = false
    ∧ (V2.generate_command backendAlwaysMalformed 3 [] [] []).1.error =
        some V2.msgInvalidFormat := by
  exact ⟨rfl, rfl, rfl⟩

/-- Claim C5, amended: when every attempt fails at the requests level
(connection failure, timeout, bad HTTP status), generate returns a
failure record with error set after exactly maxRetries sequential
attempts; a malformed response, however, is not retried: it aborts the
loop at once, after one attempt when the first response is malformed, and
generate then records that failure.  Empty response text is never
silently reported as success: a cleaned command that strips to nothing
yields a failure record. -/
theorem c5_retry_bound (backend : Nat → V2.CallOutcome) (m : Nat)
    (excText prompt now : List Char) (history : List V2.InteractionRecord)
    (hm : 1 ≤ m) :
    ((∀ i, backend i = V2.CallOutcome.requestError excText) →
      V2.call_ollama backend m = (V2.CallResult.raisedExhausted m excText, m)
      ∧ (V2.generate_command backend m prompt now history).1.success = false
      ∧ (V2.generate_command backend m prompt now history).1.error =
          some (V2.msgExhausted m excText)
      ∧ (V2.generate_command backend m prompt now history).1.command = none)
    ∧ (backend 0 = V2.CallOutcome.invalidFormat →
      V2.call_ollama backend m = (V2.CallResult.raisedInvalidFormat, 1)
      ∧ (V2.generate_command backend m prompt now history).1.success = false
      ∧ (V2.generate_command backend m prompt now history).1.error =
          some V2.msgInvalidFormat)
    ∧ (∀ text, backend 0 = V2.CallOutcome.ok text →
      stripWs (V2.cleanOllamaText text) = [] →
      (V2.generate_command backend m prompt now history).1.success = false
      ∧ (V2.generate_command backend m prompt now history).1.error =
          some V2.msgEmptyCommand) := by
  obtain ⟨r, rfl⟩ : ∃ r, m = r + 1 := ⟨m - 1, by omega⟩
  refine ⟨?_, ?_, ?_⟩
  · intro hb
    have hcall : V2.call_ollama backend (r + 1) =
        (V2.CallResult.raisedExhausted (r + 1) excText, r + 1) := by
      unfold V2.call_ollama
      exact callOllamaAux_allErr hb (r + 1) 0 (by omega) (by omega)
    have hgen : (V2.generate_command backend (r + 1) prompt now history).1 =
        V2.mkFailure prompt now (V2.msgExhausted (r + 1) excText) := by
      simp only [V2.generate_command, hcall]
    exact ⟨hcall, by rw [hgen]; rfl, by rw [hgen]; rfl, by rw [hgen]; rfl⟩
  · intro hb
    have hcall : V2.call_ollama backend (r + 1) =
        (V2.CallResult.raisedInvalidFormat, 1) := by
      unfold V2.call_ollama
      rw [V2.callOllamaAux, hb]
    have hgen : (V2.generate_command backend (r + 1) prompt now history).1 =
        V2.mkFailure prompt now V2.msgInvalidFormat := by
      simp only [V2.generate_command, hcall]
    exact ⟨hcall, by rw [hgen]; rfl, by rw [hgen]; rfl⟩
  · intro text hb hempty
    have hcall : V2.call_ollama backend (r + 1) =
        (V2.CallResult.command (V2.cleanOllamaText text), 1) := by
      unfold V2.call_ollama
      rw [V2.callOllamaAux, hb]
    have hgen : (V2.generate_command backend (r + 1) prompt now history).1 =
        V2.mkFailure prompt now V2.msgEmptyCommand := by
      simp [V2.generate_command, hcall, hempty]
    exact ⟨by rw [hgen]; rfl, by rw [hgen]; rfl⟩

/-- Claim C5, witness for the amended theorem at the three concrete
backend behaviours with the default three retries. -/
theorem c5_retry_witness :
    V2.call_ollama backendAlwaysRequestError 3 =
      (V2.CallResult.raisedExhausted 3 [], 3)
    ∧ V2.call_ollama backendAlwaysMalformed 3 =
      (V2.CallResult.raisedInvalidFormat, 1)
    ∧ (V2.generate_command backendBareShellName 3 [] [] []).1.success = false :=
  ⟨((c5_retry_bound backendAlwaysRequestError 3 [] [] [] [] (by decide)).1
      (fun _ => rfl)).1,
   ((c5_retry_bound backendAlwaysMalformed 3 [] [] [] [] (by decide)).2.1
      rfl).1,
   ((c5_retry_bound backendBareShellName 3 [] [] [] [] (by decide)).2.2
      (toChars "bash") rfl (by decide)).1⟩

/-- Claim C6, counterexample: the claim states that bare shell-name lines
such as bash are discarded before the backward scan.  extract_command of
bourguibaGPT performs no such discarding: on a text whose last line is
bash it returns bash itself, not the earlier command line. -/
theorem c6_counterexample :
    V1.extract_command (toChars "ls -la\nbash") = some (toChars "bash") := by
  decide

/-- Claim C6, amended: extract_command splits the raw text into non-empty
trimmed lines and, scanning from the end backward, returns the first line
that fully matches the token-sequence shape, with the mkdir-rm and
docker-run trims applied; bare shell-name lines are not discarded (such a
line itself matches the shape) and code-fence lines simply fail the
shape; when no line matches it returns none.  The discarding of shell
names and fence markers happens instead in the call_ollama cleanup of the
bourguibagpt variant, which joins all surviving lines rather than
selecting one. -/
theorem c6_extract_behaviour (text : List Char) :
    V1.extract_command text =
      ((V1.linesOf text).reverse.find? V1.matchesCmdShape).map V1.transformLine
    ∧ ((∀ l ∈ V1.linesOf text, V1.matchesCmdShape l = false) →
        V1.extract_command text = none) := by
  refine ⟨extract_command_eq_find text, ?_⟩
  intro hall
  rw [extract_command_eq_find text]
  have hnone : (V1.linesOf text).reverse.find? V1.matchesCmdShape = none := by
    rw [List.find?_eq_none]
    intro x hx
    simp [hall x (List.mem_reverse.mp hx)]
  rw [hnone]
  rfl

/-- Claim C6, witness for the amended theorem at a text whose only line
is a code fence. -/
theorem c6_extract_witness : V1.extract_command (toChars "\x60\x60\x60") = none :=
  (c6_extract_behaviour (toChars "\x60\x60\x60")).2 (by decide)

/-- Claim C7: for every backend behaviour and prompt, generate_command
reaches a terminal outcome as a record rather than an escaping exception
(each expected failure kind is one branch of the outcome match, caught by
the broad except block of the source) and the record is appended to the
history exactly once before the method returns. -/
theorem c7_record_always_appended (backend : Nat → V2.CallOutcome) (m : Nat)
    (prompt now : List Char) (history : List V2.InteractionRecord) :
    (V2.generate_command backend m prompt now history).2 =
      history ++ [(V2.generate_command backend m prompt now history).1]
    ∧ (V2.generate_command backend m prompt now history).1.prompt = prompt := by
  refine ⟨rfl, ?_⟩
  cases hres : (V2.call_ollama backend m).1 with
  | command c =>
    by_cases hc : stripWs c = []
    · simp [V2.generate_command, hres, hc, V2.mkFailure]
    · simp [V2.generate_command, hres, hc]
  | raisedInvalidFormat => simp [V2.generate_command, hres, V2.mkFailure]
  | raisedExhausted n excText => simp [V2.generate_command, hres, V2.mkFailure]
  | commandNone => simp [V2.generate_command, hres, V2.mkFailure]

/-- Claim C8: a generated record has success true exactly when its
command field holds a non-empty command and its error field is empty. -/
theorem c8_success_iff (backend : Nat → V2.CallOutcome) (m : Nat)
    (prompt now : List Char) (history : List V2.InteractionRecord) :
    (V2.generate_command backend m prompt now history).1.success = true ↔
      ((∃ c, (V2.generate_command backend m prompt now history).1.command = some c
          ∧ c ≠ [])
       ∧ (V2.generate_command backend m prompt now history).1.error = none) := by
  cases hres : (V2.call_ollama backend m).1 with
  | command c =>
    by_cases hc : stripWs c = []
    · simp [V2.generate_command, hres, hc, V2.mkFailure]
    · simp [V2.generate_command, hres, hc]
  | raisedInvalidFormat => simp [V2.generate_command, hres, V2.mkFailure]
  | raisedExhausted n excText => simp [V2.generate_command, hres, V2.mkFailure]
  | commandNone => simp [V2.generate_command, hres, V2.mkFailure]

/-- Round trip of a single record through its JSON object. -/
theorem decodeRecord_encodeRecord (r : V2.InteractionRecord) :
    V2.decodeRecord (V2.encodeRecord r) = some r := by
  obtain ⟨p, cmd, ts, b, err, fb⟩ := r
  cases cmd <;> cases err <;> cases fb <;> rfl

/-- Round trip of a record list through the JSON array. -/
theorem decodeRecords_map (rs : List V2.InteractionRecord) :
    V2.decodeRecords (rs.map V2.encodeRecord) = some rs := by
  induction rs with
  | nil => rfl
  | cons r rest ih =>
    simp [V2.decodeRecords, decodeRecord_encodeRecord, ih]

/-- Claim C9: saving any history (in particular one extended by N fresh
records) and loading it back yields the same records, same count, same
order, identical field values. -/
theorem c9_history_round_trip (history : List V2.InteractionRecord) :
    V2.load_history (V2.save_history history) = some history :=
  decodeRecords_map history

/-- Claim C10: when the line selected by the backward scan starts with
mkdir and contains the substring rm, extract_command returns the trimmed
prefix of the line before the first occurrence of rm; when the selected
line starts with docker run and ends with -u, it returns the line with
its last two characters removed and trimmed. -/
theorem c10_extract_trims (text L : List Char)
    (hfind : (V1.linesOf text).reverse.find? V1.matchesCmdShape = some L) :
    (hasPre (toChars "mkdir") L = true → containsSub (toChars "rm") L = true →
      V1.extract_command text = some (stripWs (splitFirst (toChars "rm") L)))
    ∧ (hasPre (toChars "docker run") L = true → hasSuf (toChars "-u") L = true →
      V1.extract_command text = some (stripWs (L.take (L.length - 2)))) := by
  have hx : V1.extract_command text = some (V1.transformLine L) := by
    rw [extract_command_eq_find, hfind]
    rfl
  constructor
  · intro hpre hrm
    rw [hx]
    obtain ⟨t, rfl⟩ := hasPre_exists hpre
    unfold V1.transformLine
    rw [if_pos (by rw [hpre, hrm]; rfl)]
    have hsplit1 : splitFirst (toChars "rm") (toChars "mkdir" ++ t) =
        'm' :: splitFirst (toChars "rm") (toChars "kdir" ++ t) := by
      rw [show toChars "mkdir" ++ t = 'm' :: (toChars "kdir" ++ t) from rfl]
      refine splitFirst_cons_of_not_pre ?_
      rw [show toChars "rm" = 'r' :: toChars "m" from rfl]
      exact hasPre_cons_ne (by decide)
    obtain ⟨ys, hys⟩ := stripWs_cons_of_nonspace
      'm' (splitFirst (toChars "rm") (toChars "kdir" ++ t)) (by decide)
    rw [hsplit1, hys]
    have hdock : hasPre (toChars "docker run") ('m' :: ys) = false := by
      rw [show toChars "docker run" = 'd' :: toChars "ocker run" from rfl]
      exact hasPre_cons_ne (by decide)
    simp [hdock]
  · intro hpre hsuf
    rw [hx]
    obtain ⟨t, rfl⟩ := hasPre_exists hpre
    unfold V1.transformLine
    have hmk : hasPre (toChars "mkdir") (toChars "docker run" ++ t) = false := by
      rw [show toChars "mkdir" = 'm' :: toChars "kdir" from rfl,
        show toChars "docker run" ++ t = 'd' :: (toChars "ocker run" ++ t) from rfl]
      exact hasPre_cons_ne (by decide)
    simp [hmk, hpre, hsuf]

/-- Claim C10, witness at a mkdir line containing rm and a docker run
line ending in -u. -/
theorem c10_extract_witness :
    V1.extract_command (toChars "mkdir foo rm -rf x") = some (toChars "mkdir foo")
    ∧ V1.extract_command (toChars "docker run -it img -u") =
        some (toChars "docker run -it img") := by
  constructor
  · have h := (c10_extract_trims (toChars "mkdir foo rm -rf x")
      (toChars "mkdir foo rm -rf x") (by decide)).1 (by decide) (by decide)
    rw [h]
    decide
  · have h := (c10_extract_trims (toChars "docker run -it img -u")
      (toChars "docker run -it img -u") (by decide)).2 (by decide) (by decide)
    rw [h]
    decide
